import Mathlib

/- Verification of the oil shell front-end / runtime-core excerpt:
   core/builtin.py and osh/bool_parse.py. -/

namespace Oil

/-- Python-style slice s[a:b] on a list of characters. -/
def slice (s : List Char) (a b : Nat) : List Char :=
  (s.take b).drop a

/-- Span kinds used by the field splitter (runtime.span_e). -/
inductive SpanKind where
  | Black
  | Delim
  | Backslash
deriving DecidableEq, Repr

/-- State threaded through the loop of builtin._AppendParts:
    start_index, last_span_was_black, join_next and the parts list. -/
structure AppendState where
  startIndex : Nat
  lastBlack : Bool
  joinNext : Bool
  parts : List (List Char)
deriving DecidableEq, Repr

/-- Python parts[-1] += seg.  On an empty list Python raises IndexError;
    callers use this only where parts is known nonempty. -/
def joinLast (parts : List (List Char)) (seg : List Char) : List (List Char) :=
  parts.dropLast ++ [parts.getLastD [] ++ seg]

/-- One iteration of the span loop in builtin._AppendParts.  Returns none
    exactly where the Python code would raise IndexError (a Delim span with
    join_next set and no parts). -/
def appendStep (s : List Char) (maxResults : Nat) (st : AppendState)
    (sp : SpanKind × Nat) : Option AppendState :=
  let seg := slice s st.startIndex sp.2
  let st1 : Option AppendState :=
    match sp.1 with
    | SpanKind.Black =>
      if st.joinNext ∧ st.parts ≠ [] then
        some { st with parts := joinLast st.parts seg, joinNext := false,
                       lastBlack := true }
      else
        some { st with parts := st.parts ++ [seg], lastBlack := true }
    | SpanKind.Delim =>
      if st.joinNext then
        if st.parts = [] then none
        else some { st with parts := joinLast st.parts seg, joinNext := false,
                            lastBlack := false }
      else
        some { st with lastBlack := false }
    | SpanKind.Backslash =>
      some { st with joinNext := if st.lastBlack then true else st.joinNext,
                     lastBlack := false }
  match st1 with
  | none => none
  | some st2 =>
    some { st2 with
             joinNext := if maxResults ≤ st2.parts.length then true
                         else st2.joinNext,
             startIndex := sp.2 }

/-- The span loop of builtin._AppendParts. -/
def appendGo (s : List Char) (maxResults : Nat) :
    List (SpanKind × Nat) → AppendState → Option AppendState
  | [], st => some st
  | sp :: rest, st =>
    match appendStep s maxResults st sp with
    | none => none
    | some st' => appendGo s maxResults rest st'

/-- done flag computed at the end of builtin._AppendParts: false exactly when
    the final span is a Backslash. -/
def doneOf (spans : List (SpanKind × Nat)) : Bool :=
  match spans.getLast? with
  | some (SpanKind.Backslash, _) => false
  | _ => true

/-- builtin._AppendParts.  The Python function mutates `parts` and returns
    (done, join_next); here the result is (parts, done, join_next). -/
def AppendParts (s : List Char) (spans : List (SpanKind × Nat))
    (maxResults : Nat) (joinNext : Bool) (parts : List (List Char)) :
    Option (List (List Char) × Bool × Bool) :=
  match appendGo s maxResults spans ⟨0, false, joinNext, parts⟩ with
  | none => none
  | some st => some (st.parts, doneOf spans, st.joinNext)

/-- Python line.endswith a newline. -/
def endsNL (line : List Char) : Bool := line.getLast? = some '\n'

/-- The read loop of builtin.Read: reads lines until EOF or until
    _AppendParts reports done.  The input stream is the list of successive
    readline results (each nonempty; the empty-string EOF result is the end
    of the list).  The splitter (legacy.SplitForRead, not under src/) is a
    parameter. -/
def ReadLoop (splitter : List Char → Bool → List (SpanKind × Nat))
    (allowEscapes : Bool) (maxResults : Nat) :
    List (List Char) → Bool → List (List Char) →
    Option (List (List Char) × Nat)
  | [], _, parts => some (parts, 1)
  | line :: rest, joinNext, parts =>
    let line' := if endsNL line then line.dropLast else line
    let status := if endsNL line then 0 else 1
    let spans := splitter line' allowEscapes
    match AppendParts line' spans maxResults joinNext parts with
    | none => none
    | some (parts', done, join') =>
      if done then some (parts', status)
      else ReadLoop splitter allowEscapes maxResults rest join' parts'

/-- Variable assignments performed at the end of builtin.Read: each name gets
    the corresponding part, or the empty string past the end of parts. -/
def assignsOf (names : List String) (parts : List (List Char)) :
    List (String × List Char) :=
  names.mapIdx (fun i n => (n, parts.getD i []))

/-- The names builtin.Read assigns to: REPLY when none are given. -/
def readNames (names0 : List String) : List String :=
  if names0.isEmpty then ["REPLY"] else names0

/-- builtin.Read, main branch (without the -n byte-count branch, which is a
    raw os.read).  Flag parsing (core/args.py, not under src/) is already
    done: `raw` is the -r flag, `names0` the positional names. -/
def Read (splitter : List Char → Bool → List (SpanKind × Nat)) (raw : Bool)
    (names0 : List String) (input : List (List Char)) :
    Option (List (String × List Char) × Nat) :=
  let names := readNames names0
  match ReadLoop splitter (!raw) names.length input false [] with
  | none => none
  | some (parts, status) => some (assignsOf names parts, status)

/-- Token/char-class identities used by this excerpt (core/id_kind.py Id). -/
inductive Id where
  | Char_OneChar
  | Char_Stop
  | Char_Octal
  | Char_Hex
  | Char_Unicode4
  | Char_Unicode8
  | Char_Literals
  | Op_DPipe
  | Op_DAmp
  | Op_LParen
  | Op_RParen
  | Op_Newline
  | KW_Bang
  | Lit_DRightBracket
  | Eof_Real
  | Undefined_Tok
  | BoolUnary_a
  | BoolUnary_o
  | BoolUnary_z
  | BoolUnary_n
  | BoolBinary_Equal
  | BoolBinary_EqualTilde
  | Redir_Less
  | Word_Compound
deriving DecidableEq, Repr

def isOctalDigit (c : Char) : Bool := decide ('0' ≤ c ∧ c ≤ '7')

def isHexDigit (c : Char) : Bool :=
  c.isDigit || decide ('a' ≤ c ∧ c ≤ 'f') || decide ('A' ≤ c ∧ c ≤ 'F')

/-- The _ONE_CHAR escape table of core/builtin.py (Python dict; none models
    a KeyError). -/
def _ONE_CHAR (c : Char) : Option Char :=
  match c with
  | '0' => some (Char.ofNat 0)
  | 'a' => some (Char.ofNat 7)
  | 'b' => some (Char.ofNat 8)
  | 'e' => some (Char.ofNat 27)
  | 'E' => some (Char.ofNat 27)
  | 'f' => some (Char.ofNat 12)
  | 'n' => some '\n'
  | 'r' => some (Char.ofNat 13)
  | 't' => some '\t'
  | 'v' => some (Char.ofNat 11)
  | '\\' => some '\\'
  | _ => none

/-- One token of ECHO_LEXER, from the pattern list of core/builtin.py:
      R '\\[0abeEfrtnv\\]'      Char_OneChar
      C '\c'                    Char_Stop
      R '\\0[0-7]\x7b1,3\x7d'   Char_Octal
      R '\\x[0-9a-fA-F]\x7b1,2\x7d'  Char_Hex
      R '\\u[0-9]\x7b1,4\x7d'   Char_Unicode4   (note: decimal digits only)
      R '\\U[0-9]\x7b1,8\x7d'   Char_Unicode8   (note: decimal digits only)
      R '[^\\]+'                Char_Literals
      R '\\.'                   Char_Literals
      R '\\$'                   Char_Literals
    Modelled from the spec: the SimpleLexer engine itself (core/lexer.py is
    not under src/) takes at each position the longest match, ties resolved
    toward the earlier pattern; a backslash before a newline (where no
    pattern matches, Python '.' excluding newline) is literal text per the
    §4.1 row "anything else".  Returns the token and the remaining input. -/
def echoToken : List Char → (Id × List Char) × List Char
  | [] => ((Id.Char_Literals, []), [])
  | '\\' :: rest =>
    match rest with
    | [] => ((Id.Char_Literals, ['\\']), [])
    | c :: rest2 =>
      let oct := (rest2.takeWhile isOctalDigit).take 3
      let hex := (rest2.takeWhile isHexDigit).take 2
      let dec4 := (rest2.takeWhile Char.isDigit).take 4
      let dec8 := (rest2.takeWhile Char.isDigit).take 8
      if c = '0' ∧ oct ≠ [] then
        ((Id.Char_Octal, '\\' :: '0' :: oct), rest2.drop oct.length)
      else if (_ONE_CHAR c).isSome then
        ((Id.Char_OneChar, ['\\', c]), rest2)
      else if c = 'c' then
        ((Id.Char_Stop, ['\\', 'c']), rest2)
      else if c = 'x' ∧ hex ≠ [] then
        ((Id.Char_Hex, '\\' :: 'x' :: hex), rest2.drop hex.length)
      else if c = 'u' ∧ dec4 ≠ [] then
        ((Id.Char_Unicode4, '\\' :: 'u' :: dec4), rest2.drop dec4.length)
      else if c = 'U' ∧ dec8 ≠ [] then
        ((Id.Char_Unicode8, '\\' :: 'U' :: dec8), rest2.drop dec8.length)
      else
        ((Id.Char_Literals, ['\\', c]), rest2)
  | c :: rest =>
    let run := (c :: rest).takeWhile (fun x => x ≠ '\\')
    ((Id.Char_Literals, run), (c :: rest).drop run.length)

def echoTokensGo : Nat → List Char → List (Id × List Char)
  | 0, _ => []
  | _, [] => []
  | fuel + 1, cs =>
    let (t, rest) := echoToken cs
    t :: echoTokensGo fuel rest

/-- ECHO_LEXER.Tokens(a): the token stream of one echo argument.  Every token
    consumes at least one character, so length + 1 units of fuel suffice. -/
def echoLexerTokens (cs : List Char) : List (Id × List Char) :=
  echoTokensGo (cs.length + 1) cs

def octVal (cs : List Char) : Nat :=
  cs.foldl (fun a c => a * 8 + (c.toNat - '0'.toNat)) 0

def hexDigitVal (c : Char) : Nat :=
  if c.isDigit then c.toNat - '0'.toNat
  else if decide ('a' ≤ c ∧ c ≤ 'f') then c.toNat - 'a'.toNat + 10
  else c.toNat - 'A'.toNat + 10

def hexVal (cs : List Char) : Nat :=
  cs.foldl (fun a c => a * 16 + hexDigitVal c) 0

/-- Result of evaluating one echo token: a string, the \c stop sentinel
    (Python None), or a Python-level error (KeyError / AssertionError). -/
inductive EvalResult where
  | str (s : List Char)
  | stop
  | err
deriving DecidableEq, Repr

/-- builtin._EvalStringPart.  For Char_Unicode8, Python unichr raises
    ValueError on a code point above 0x10FFFF — modelled as err; a lone
    surrogate (0xD800-0xDFFF), which Python 2 unichr permits but Char cannot
    represent, is also mapped to err so it is never counted as a successful
    decode.  A Char_Unicode4 value is at most 0x9999 (its four digits are
    decimal, read in base 16), below the surrogate range, so Char.ofNat is
    exact there. -/
def _EvalStringPart (id_ : Id) (value : List Char) : EvalResult :=
  match id_ with
  | Id.Char_OneChar =>
    match _ONE_CHAR (value.getD 1 ' ') with
    | some c => .str [c]
    | none => .err
  | Id.Char_Stop => .stop
  | Id.Char_Octal => .str [Char.ofNat (octVal (value.drop 2) % 256)]
  | Id.Char_Hex => .str [Char.ofNat (hexVal (value.drop 2))]
  | Id.Char_Unicode4 => .str [Char.ofNat (hexVal (value.drop 2))]
  | Id.Char_Unicode8 =>
    let i := hexVal (value.drop 2)
    if i < 0xd800 ∨ (0xe000 ≤ i ∧ i ≤ 0x10ffff) then .str [Char.ofNat i]
    else .err
  | Id.Char_Literals => .str value
  | _ => .err

/-- Decoding one echo argument: either the fully decoded string, or the
    decoded parts before a \c stop token, or an error. -/
inductive PartsResult where
  | full (s : List Char)
  | stopped (s : List Char)
  | err
deriving DecidableEq, Repr

/-- The inner token loop of builtin.Echo over one argument. -/
def evalParts : List (Id × List Char) → PartsResult
  | [] => .full []
  | (i, v) :: rest =>
    match _EvalStringPart i v with
    | .err => .err
    | .stop => .stopped []
    | .str p =>
      match evalParts rest with
      | .full s => .full (p ++ s)
      | .stopped s => .stopped (p ++ s)
      | .err => .err

def decodeOfArg (a : List Char) : PartsResult :=
  evalParts (echoLexerTokens a)

/-- Result of decoding all echo arguments under -e: stopped means a \c was
    hit and the remaining arguments were dropped. -/
inductive ArgsResult where
  | ok (l : List (List Char))
  | stopped (l : List (List Char))
  | err
deriving DecidableEq, Repr

/-- The outer argument loop of builtin.Echo under -e (building new_argv). -/
def decodeArgs : List (List Char) → ArgsResult
  | [] => .ok []
  | a :: rest =>
    match decodeOfArg a with
    | .err => .err
    | .stopped p => .stopped [p]
    | .full s =>
      match decodeArgs rest with
      | .ok l => .ok (s :: l)
      | .stopped l => .stopped (s :: l)
      | .err => .err

/-- The argument-printing loop of builtin.Echo: args joined by single
    spaces. -/
def spaceJoin (l : List (List Char)) : List Char :=
  List.intercalate [' '] l

/-- builtin.Echo.  Flag parsing (ParseLikeEcho, core/args.py not under src/)
    is already done: `e` and `n` are the parsed flags, argv the remaining
    arguments.  Result: the bytes written to stdout and the return status;
    none on a Python-level error.  On a \c stop the accumulated output is
    written with no trailing newline and status 0 (the EARLY RETURN). -/
def Echo (e n : Bool) (argv : List (List Char)) : Option (List Char × Nat) :=
  if e then
    match decodeArgs argv with
    | .err => none
    | .stopped out => some (spaceJoin out, 0)
    | .ok newArgv =>
      some (spaceJoin newArgv ++ (if n then [] else ['\n']), 0)
  else
    some (spaceJoin argv ++ (if n then [] else ['\n']), 0)

/-- The EBuiltin enumeration of core/builtin.py (util.Enum). -/
inductive EBuiltin where
  | NONE | READ | ECHO | SHIFT
  | CD | PUSHD | POPD | DIRS
  | EXPORT | UNSET | SET | SHOPT
  | TRAP | UMASK
  | EXIT | SOURCE | DOT | EVAL | EXEC | WAIT | JOBS
  | COMPLETE | COMPGEN | DEBUG_LINE
  | TRUE | FALSE
  | COLON
  | TEST | BRACKET | GETOPTS
  | COMMAND | TYPE | HELP
deriving DecidableEq, Repr

/-- The _SPECIAL_BUILTINS list of core/builtin.py ("These can't be redefined
    by functions"). -/
def _SPECIAL_BUILTINS : List String :=
  ["break", ":", "continue", ".", "eval", "exec", "exit", "export",
   "readonly", "return", "set", "shift", "times", "trap", "unset",
   "local", "declare"]

/-- builtin.ResolveSpecial. -/
def ResolveSpecial (argv0 : String) : EBuiltin :=
  if argv0 = "export" then EBuiltin.EXPORT
  else if argv0 = "exit" then EBuiltin.EXIT
  else if argv0 = ":" then EBuiltin.COLON
  else EBuiltin.NONE

/-- builtin.Resolve: the ordinary-builtin name table (an if chain in the
    source). -/
def Resolve (argv0 : String) : EBuiltin :=
  if argv0 = "read" then EBuiltin.READ
  else if argv0 = "echo" then EBuiltin.ECHO
  else if argv0 = "cd" then EBuiltin.CD
  else if argv0 = "shift" then EBuiltin.SHIFT
  else if argv0 = "pushd" then EBuiltin.PUSHD
  else if argv0 = "popd" then EBuiltin.POPD
  else if argv0 = "dirs" then EBuiltin.DIRS
  else if argv0 = "source" then EBuiltin.SOURCE
  else if argv0 = "." then EBuiltin.DOT
  else if argv0 = "trap" then EBuiltin.TRAP
  else if argv0 = "umask" then EBuiltin.UMASK
  else if argv0 = "eval" then EBuiltin.EVAL
  else if argv0 = "exec" then EBuiltin.EXEC
  else if argv0 = "wait" then EBuiltin.WAIT
  else if argv0 = "jobs" then EBuiltin.JOBS
  else if argv0 = "set" then EBuiltin.SET
  else if argv0 = "shopt" then EBuiltin.SHOPT
  else if argv0 = "unset" then EBuiltin.UNSET
  else if argv0 = "complete" then EBuiltin.COMPLETE
  else if argv0 = "compgen" then EBuiltin.COMPGEN
  else if argv0 = "true" then EBuiltin.TRUE
  else if argv0 = "false" then EBuiltin.FALSE
  else if argv0 = "test" then EBuiltin.TEST
  else if argv0 = "[" then EBuiltin.BRACKET
  else if argv0 = "getopts" then EBuiltin.GETOPTS
  else if argv0 = "command" then EBuiltin.COMMAND
  else if argv0 = "type" then EBuiltin.TYPE
  else if argv0 = "help" then EBuiltin.HELP
  else if argv0 = "debug-line" then EBuiltin.DEBUG_LINE
  else EBuiltin.NONE

/-- Shell values (runtime.value_e): Undef, Str, StrArray, per the spec's
    Value data model (core/runtime.py is not under src/). -/
inductive Value where
  | Undef
  | Str (s : String)
  | StrArray (a : List String)
deriving DecidableEq, Repr

/-- os.path.join for the two-argument uses in this file. -/
def pathJoin (d name : String) : String :=
  if d = "" then name
  else if d.toList.getLast? = some '/' then d ++ name
  else d ++ "/" ++ name

/-- builtin._ResolveNames: resolution used by `command -v` and `type`.
    funcs is the set of user-defined function names; isOtherBuiltin and
    isKeyword stand for lex.IsOtherBuiltin / lex.IsKeyword (osh/lex.py is
    not under src/), fileExists for os.path.exists. -/
def _ResolveNames (names : List String) (funcs : List String)
    (pathVal : Value) (isOtherBuiltin isKeyword : String → Bool)
    (fileExists : String → Bool) : List (Option (String × String)) :=
  let pathList : List String :=
    match pathVal with
    | Value.Str s => s.splitOn ":"
    | _ => []
  names.map (fun name =>
    if name ∈ funcs then some ("function", name)
    else if Resolve name ≠ EBuiltin.NONE then some ("builtin", name)
    else if ResolveSpecial name ≠ EBuiltin.NONE then some ("builtin", name)
    else if isOtherBuiltin name then some ("builtin", name)
    else if isKeyword name then some ("keyword", name)
    else
      match pathList.find? (fun d => fileExists (pathJoin d name)) with
      | some d => some ("file", pathJoin d name)
      | none => none)

/-- Token kinds (core/id_kind.py Kind).  Modelled from the spec: the Id→Kind
    table lives in generated osh/meta code, not under src/; only the kinds
    the boolean parser inspects are needed. -/
inductive Kind where
  | Undefined
  | Word
  | BoolUnary
  | BoolBinary
  | Redir
  | Op
  | Lit
  | Eof
  | KW
deriving DecidableEq, Repr

/-- Modelled from the spec: LookupKind, the Id→Kind classification. -/
def LookupKind : Id → Kind
  | Id.Op_DPipe => Kind.Op
  | Id.Op_DAmp => Kind.Op
  | Id.Op_LParen => Kind.Op
  | Id.Op_RParen => Kind.Op
  | Id.Op_Newline => Kind.Op
  | Id.KW_Bang => Kind.KW
  | Id.Lit_DRightBracket => Kind.Lit
  | Id.Eof_Real => Kind.Eof
  | Id.BoolUnary_a => Kind.BoolUnary
  | Id.BoolUnary_o => Kind.BoolUnary
  | Id.BoolUnary_z => Kind.BoolUnary
  | Id.BoolUnary_n => Kind.BoolUnary
  | Id.BoolBinary_Equal => Kind.BoolBinary
  | Id.BoolBinary_EqualTilde => Kind.BoolBinary
  | Id.Redir_Less => Kind.Redir
  | Id.Word_Compound => Kind.Word
  | _ => Kind.Undefined

/-- A word of the boolean grammar.  word.BoolId derives the classification
    from the word's first/only part (core/word.py is not under src/), so
    words here carry their classification alongside their text. -/
structure BWord where
  id : Id
  text : String
deriving DecidableEq, Repr

/-- word.BoolId. -/
def BoolId (w : BWord) : Id := w.id

/-- The boolean AST produced by osh/bool_parse.py (ast.LogicalOr etc.). -/
inductive BoolExpr where
  | LogicalOr (l r : BoolExpr)
  | LogicalAnd (l r : BoolExpr)
  | LogicalNot (c : BoolExpr)
  | BoolUnary (op : Id) (w : BWord)
  | BoolBinary (op : Id) (l r : BWord)
  | WordTest (w : BWord)
deriving DecidableEq, Repr

/-- External collaborators of the boolean parser: libc.regex_parse (true =
    the pattern parses) and word.StaticEval (some = statically known). -/
structure BoolCtx where
  regexParse : String → Bool
  staticEval : BWord → Option String

/-- Parser state: the remaining word stream, the 1-2 word lookahead buffer
    (self.words), the current word and its operator classification.  b_kind
    is always LookupKind of opId and is recomputed at use sites. -/
structure BoolParserState where
  stream : List BWord
  words : List BWord
  cur : BWord
  opId : Id
deriving DecidableEq, Repr

def eofWord : BWord := ⟨Id.Eof_Real, ""⟩

/-- w_parser.ReadWord: the next word of the stream; once the stream is
    exhausted the word parser keeps returning end-of-input words. -/
def readWord : List BWord → BWord × List BWord
  | [] => (eofWord, [])
  | w :: rest => (w, rest)

/-- BoolParser._NextOne.  The lex_mode argument selects how the word parser
    lexes the next word; the stream here is pre-tokenized, so it is not
    modelled. -/
def nextOne (st : BoolParserState) : BoolParserState :=
  match st.words with
  | [_, w1] => { st with words := [w1], cur := w1, opId := BoolId w1 }
  | _ =>
    let (w, s') := readWord st.stream
    { stream := s', words := [w], cur := w, opId := BoolId w }

/-- The newline-skipping loop of BoolParser._Next, fueled. -/
def nextSkip : Nat → BoolParserState → Option BoolParserState
  | 0, _ => none
  | fuel + 1, st =>
    let st' := nextOne st
    if st'.opId = Id.Op_Newline then nextSkip fuel st' else some st'

/-- Errors of the boolean parser: p_die parse errors, AssertionError, and
    fuel exhaustion (which the entry points' fuel makes unreachable). -/
inductive PErr where
  | outOfFuel
  | parseError (msg : String)
  | assertFail
deriving DecidableEq, Repr

/-- BoolParser._Next with self-sizing fuel: the skip loop runs at most once
    per buffered word plus once per stream word before hitting a non-newline
    (end-of-stream words are Eof_Real). -/
def nextAuto (st : BoolParserState) : Except PErr BoolParserState :=
  match nextSkip (st.stream.length + 4) st with
  | none => .error PErr.outOfFuel
  | some st' => .ok st'

/-- BoolParser._LookAhead: requires exactly one buffered word; reads and
    buffers one more. -/
def lookAhead (st : BoolParserState) :
    Except PErr (BWord × BoolParserState) :=
  match st.words with
  | [w0] =>
    let (w, s') := readWord st.stream
    .ok (w, { st with stream := s', words := [w0, w] })
  | _ => .error PErr.assertFail

mutual

/-- BoolParser.ParseExpr: Expr : Term (OR Expr)? with OR surfacing as
    Op_DPipe ([[ mode) or BoolUnary_o (test mode). -/
def ParseExpr (ctx : BoolCtx) :
    Nat → BoolParserState → Except PErr (BoolExpr × BoolParserState)
  | 0, _ => .error PErr.outOfFuel
  | fuel + 1, st => do
    let (left, st1) ← ParseTerm ctx fuel st
    if st1.opId = Id.Op_DPipe ∨ st1.opId = Id.BoolUnary_o then do
      let st2 ← nextAuto st1
      let (right, st3) ← ParseExpr ctx fuel st2
      return (BoolExpr.LogicalOr left right, st3)
    else
      return (left, st1)

/-- BoolParser.ParseTerm: Term : Negated (AND Term)? with AND surfacing as
    Op_DAmp ([[ mode) or BoolUnary_a (test mode). -/
def ParseTerm (ctx : BoolCtx) :
    Nat → BoolParserState → Except PErr (BoolExpr × BoolParserState)
  | 0, _ => .error PErr.outOfFuel
  | fuel + 1, st => do
    let (left, st1) ← ParseNegatedFactor ctx fuel st
    if st1.opId = Id.Op_DAmp ∨ st1.opId = Id.BoolUnary_a then do
      let st2 ← nextAuto st1
      let (right, st3) ← ParseTerm ctx fuel st2
      return (BoolExpr.LogicalAnd left right, st3)
    else
      return (left, st1)

/-- BoolParser.ParseNegatedFactor: Negated : '!'? Factor. -/
def ParseNegatedFactor (ctx : BoolCtx) :
    Nat → BoolParserState → Except PErr (BoolExpr × BoolParserState)
  | 0, _ => .error PErr.outOfFuel
  | fuel + 1, st =>
    if st.opId = Id.KW_Bang then do
      let st1 ← nextAuto st
      let (child, st2) ← ParseFactor ctx fuel st1
      return (BoolExpr.LogicalNot child, st2)
    else
      ParseFactor ctx fuel st

/-- BoolParser.ParseFactor: UNARY_OP WORD, WORD BINARY_OP WORD (committed
    after one word of lookahead whose classification is BoolBinary or the
    redirection pun Redir), bare WORD, or parenthesized Expr.  On =~ a
    statically evaluable right-hand word is validated with regexParse at
    parse time. -/
def ParseFactor (ctx : BoolCtx) :
    Nat → BoolParserState → Except PErr (BoolExpr × BoolParserState)
  | 0, _ => .error PErr.outOfFuel
  | fuel + 1, st =>
    if LookupKind st.opId = Kind.BoolUnary then do
      let op := st.opId
      let st1 ← nextAuto st
      let w := st1.cur
      let st2 ← nextAuto st1
      return (BoolExpr.BoolUnary op w, st2)
    else if LookupKind st.opId = Kind.Word then do
      let (t2, st') ← lookAhead st
      let t2OpId := BoolId t2
      let t2BKind := LookupKind t2OpId
      if t2BKind = Kind.BoolBinary ∨ t2BKind = Kind.Redir then do
        let left := st'.cur
        let st1 ← nextAuto st'
        let op := st1.opId
        let isRegex := t2OpId = Id.BoolBinary_EqualTilde
        let st2 ← nextAuto st1
        let right := st2.cur
        if isRegex then
          match ctx.staticEval right with
          | some regexStr =>
            if ctx.regexParse regexStr then do
              let st3 ← nextAuto st2
              return (BoolExpr.BoolBinary op left right, st3)
            else
              .error (PErr.parseError "Error parsing regex")
          | none => do
            let st3 ← nextAuto st2
            return (BoolExpr.BoolBinary op left right, st3)
        else do
          let st3 ← nextAuto st2
          return (BoolExpr.BoolBinary op left right, st3)
      else do
        let w := st'.cur
        let st1 ← nextAuto st'
        return (BoolExpr.WordTest w, st1)
    else if st.opId = Id.Op_LParen then do
      let st1 ← nextAuto st
      let (node, st2) ← ParseExpr ctx fuel st1
      if st2.opId ≠ Id.Op_RParen then
        .error (PErr.parseError "Expected )")
      else do
        let st3 ← nextAuto st2
        return (node, st3)
    else
      .error (PErr.parseError "Unexpected token in boolean expression")

end

/-- Initial parser state over a word stream. -/
def initState (stream : List BWord) : BoolParserState :=
  ⟨stream, [], ⟨Id.Undefined_Tok, ""⟩, Id.Undefined_Tok⟩

/-- Fuel that bounds every chain of parser calls for a given stream. -/
def parseFuel (stream : List BWord) : Nat := stream.length * 4 + 16

/-- BoolParser.Parse: compile-time [[ entry point; after a complete
    expression the current word must be the ]] sentinel. -/
def Parse (ctx : BoolCtx) (stream : List BWord) : Except PErr BoolExpr :=
  match nextSkip (stream.length + 4) (initState stream) with
  | none => .error PErr.outOfFuel
  | some st1 => do
    let (node, st2) ← ParseExpr ctx (parseFuel stream) st1
    if st2.opId ≠ Id.Lit_DRightBracket then
      .error (PErr.parseError "Expected ]]")
    else
      return node

/-- BoolParser.ParseForBuiltin: runtime test/[ entry point; after a complete
    expression the current word must be end-of-input. -/
def ParseForBuiltin (ctx : BoolCtx) (stream : List BWord) :
    Except PErr BoolExpr :=
  match nextSkip (stream.length + 4) (initState stream) with
  | none => .error PErr.outOfFuel
  | some st1 => do
    let (node, st2) ← ParseExpr ctx (parseFuel stream) st1
    if st2.opId ≠ Id.Eof_Real then
      .error (PErr.parseError "Unexpected trailing word in test expression")
    else
      return node

/-- A plain word of the stream. -/
def mkW (t : String) : BWord := ⟨Id.Word_Compound, t⟩

def wAmp : BWord := ⟨Id.Op_DAmp, "&&"⟩
def wPipe : BWord := ⟨Id.Op_DPipe, "||"⟩
def wBang : BWord := ⟨Id.KW_Bang, "!"⟩
def wRBracket : BWord := ⟨Id.Lit_DRightBracket, "]]"⟩

def ctx0 : BoolCtx := ⟨fun _ => true, fun _ => none⟩

/-- Modelled from the spec / Python int(): optional surrounding whitespace,
    an optional sign, then one or more decimal digits. -/
def pyInt? (s : String) : Option Int :=
  let cs := (s.toList.dropWhile Char.isWhitespace).reverse.dropWhile
      Char.isWhitespace |>.reverse
  let digitsVal : List Char → Int := fun ds =>
    (ds.foldl (fun a c => a * 10 + (c.toNat - '0'.toNat)) 0 : Nat)
  match cs with
  | '+' :: ds =>
    if !ds.isEmpty && ds.all Char.isDigit then some (digitsVal ds) else none
  | '-' :: ds =>
    if !ds.isEmpty && ds.all Char.isDigit then some (-(digitsVal ds))
    else none
  | ds =>
    if !ds.isEmpty && ds.all Char.isDigit then some (digitsVal ds) else none

/-- A Python dict write: later writes to the same key replace earlier
    ones. -/
def dictSet (d : List (String × Bool)) (k : String) (v : Bool) :
    List (String × Bool) :=
  d.filter (fun p => p.1 ≠ k) ++ [(k, v)]

def dictGet (d : List (String × Bool)) (k : String) : Option Bool :=
  (d.find? (fun p => p.1 = k)).map (fun p => p.2)

def _ParseOptSpecGo : List Char → List (String × Bool) →
    List (String × Bool)
  | [], d => d
  | c :: ':' :: rest2, d =>
    _ParseOptSpecGo rest2 (dictSet d (String.mk ['-', c]) true)
  | c :: rest, d =>
    _ParseOptSpecGo rest (dictSet d (String.mk ['-', c]) false)

/-- builtin._ParseOptSpec: "-<char>" ↦ takes-argument?. -/
def _ParseOptSpec (specStr : String) : List (String × Bool) :=
  _ParseOptSpecGo specStr.toList []

/-- Modelled from the spec: mem.GetArgNum — the positional argument with the
    given 1-based number, Undef when out of range (core/state.py is not
    under src/). -/
def getArgNum (posArgs : List String) (i : Int) : Value :=
  if 1 ≤ i ∧ i ≤ (posArgs.length : Int) then
    Value.Str (posArgs.getD (i - 1).toNat "")
  else
    Value.Undef

def startsDash (s : String) : Bool :=
  match s.toList with
  | '-' :: _ => true
  | _ => false

def lastCharStr (s : String) : String :=
  String.mk [s.toList.getLastD ' ']

/-- builtin._GetOpts: parse one option.  Returns
    (status, opt char, OPTARG, new OPTIND). -/
def _GetOpts (spec : List (String × Bool)) (posArgs : List String)
    (optind : Int) : Nat × String × String × Int :=
  let optarg := ""
  match getArgNum posArgs optind with
  | Value.Undef => (1, "?", optarg, optind)
  | Value.StrArray _ => (1, "?", optarg, optind)
  | Value.Str current =>
    if !startsDash current then (1, "?", optarg, optind)
    else if dictGet spec current = none then (0, "?", optarg, optind + 1)
    else
      let optind1 := optind + 1
      let optChar := lastCharStr current
      let needsArg := (dictGet spec current).getD false
      if needsArg then
        match getArgNum posArgs optind1 with
        | Value.Str a => (0, optChar, a, optind1 + 1)
        | _ => (0, "?", optarg, optind1)
      else
        (0, optChar, optarg, optind1)

/-- Interpreter memory as the getopts and wait builtins see it: named
    variables and the positional arguments (core/state.py is not under
    src/, modelled from the spec's variable-store contract). -/
structure Mem where
  vars : String → Value
  posArgs : List String

def setGlobalString (mem : Mem) (name s : String) : Mem :=
  { mem with vars := fun n => if n = name then Value.Str s else mem.vars n }

def setGlobalArray (mem : Mem) (name : String) (a : List String) : Mem :=
  { mem with
      vars := fun n => if n = name then Value.StrArray a else mem.vars n }

/-- How a builtin invocation ends: a normal exit status, a usage error
    (args.UsageError), or a fatal interpreter error (util.e_die). -/
inductive BuiltinResult where
  | status (n : Nat)
  | usageError (msg : String)
  | fatal (msg : String)
deriving DecidableEq, Repr

/-- builtin.GetOpts.  The spec-string cache (_GETOPTS_CACHE) only memoizes
    _ParseOptSpec, so it is semantically transparent and not modelled. -/
def GetOpts (argv : List String) (mem : Mem) : BuiltinResult × Mem :=
  match argv with
  | specStr :: varName :: _ =>
    let spec := _ParseOptSpec specStr
    match mem.vars "OPTIND" with
    | Value.Str s =>
      match pyInt? s with
      | none => (BuiltinResult.fatal "OPTIND doesn't look like an integer",
                 mem)
      | some optind =>
        let r := _GetOpts spec mem.posArgs optind
        let mem1 := setGlobalString mem varName r.2.1
        let mem2 := setGlobalString mem1 "OPTARG" r.2.2.1
        let mem3 := setGlobalString mem2 "OPTIND" (toString r.2.2.2)
        (BuiltinResult.status r.1, mem3)
    | _ => (BuiltinResult.fatal "OPTIND should be a string", mem)
  | _ => (BuiltinResult.usageError "getopts optstring name [arg]", mem)

/-- The final observation of one job, as job.WaitUntilDone(waiter) returns
    it: a single process's status, or the statuses of every member of a
    pipeline (core/process.py is not under src/; modelled from the spec's
    job contract, blocking elided). -/
inductive JobStatus where
  | single (st : Int)
  | pipeline (sts : List Int)
deriving DecidableEq, Repr

/-- The status Wait takes from one awaited job (st[-1] for a pipeline). -/
def jobStatusLast : JobStatus → Int
  | JobStatus.single st => st
  | JobStatus.pipeline sts => sts.getLastD 0

/-- The explicit-ids loop of builtin.Wait (the branch after the -n and
    no-argument branches): for each id, parse it as an int (non-numeric →
    error, return 127), look it up in the job table (absent → error, return
    127), else take its status — st[-1] for a pipeline, also publishing
    every member status into PIPESTATUS.  st0/ps0 thread the running status
    (initially 1) and the current PIPESTATUS binding. -/
def WaitIds (jobs : Int → Option JobStatus) (args : List String)
    (st0 : Int) (ps0 : Option (List String)) : Int × Option (List String) :=
  match args with
  | [] => (st0, ps0)
  | a :: rest =>
    match pyInt? a with
    | none => (127, ps0)
    | some jid =>
      match jobs jid with
      | none => (127, ps0)
      | some (JobStatus.pipeline sts) =>
        WaitIds jobs rest (sts.getLastD 0) (some (sts.map toString))
      | some (JobStatus.single st) =>
        WaitIds jobs rest st ps0

/-- builtin.Wait restricted to the explicit-ids case (no -n, args
    nonempty). -/
def Wait (jobs : Int → Option JobStatus) (args : List String)
    (ps0 : Option (List String)) : Int × Option (List String) :=
  WaitIds jobs args 1 ps0

/-- Content of the Black and Delim spans of a span list, starting at a given
    offset; Backslash spans contribute nothing. -/
def spanContentConcat (s : List Char) :
    List (SpanKind × Nat) → Nat → List Char
  | [], _ => []
  | (k, e) :: rest, start =>
    (if k = SpanKind.Backslash then [] else slice s start e) ++
      spanContentConcat s rest e

/-- The single field _AppendParts yields for max_fields = 1: everything from
    the first Black span onward — Black and Delim content alike — and none
    when the span list has no Black span. -/
def fieldFromFirstBlack (s : List Char) :
    List (SpanKind × Nat) → Nat → Option (List Char)
  | [], _ => none
  | (k, e) :: rest, start =>
    if k = SpanKind.Black then
      some (slice s start e ++ spanContentConcat s rest e)
    else
      fieldFromFirstBlack s rest e

def hasBlackSpan (spans : List (SpanKind × Nat)) : Bool :=
  spans.any (fun sp => sp.1 = SpanKind.Black)

/-- Modelled from the spec's words, for comparison with _AppendParts: "the
    concatenation of the line's Black-span content with all Delim-span
    content removed". -/
def blackContentOnly (s : List Char) :
    List (SpanKind × Nat) → Nat → List Char
  | [], _ => []
  | (k, e) :: rest, start =>
    (if k = SpanKind.Black then slice s start e else []) ++
      blackContentOnly s rest e

/-- The decoded string of one echo argument (the payload of decodeOfArg). -/
def fullOf (a : List Char) : List Char :=
  match decodeOfArg a with
  | PartsResult.full s => s
  | PartsResult.stopped s => s
  | PartsResult.err => []

/-- Job-table lookup through Python int(): the job named by one wait
    argument. -/
def jobOf (jobs : Int → Option JobStatus) (x : String) : Option JobStatus :=
  (pyInt? x).bind jobs

/-- The last span of a span list is not a Backslash (no pending
    continuation). -/
def lastNotBackslash (spans : List (SpanKind × Nat)) : Prop :=
  ∀ e, spans.getLast? ≠ some (SpanKind.Backslash, e)

/-- Loop invariant of _AppendParts: the parts list never exceeds max, at
    capacity join_next is set, and join_next or a preceding Black span
    implies parts is nonempty. -/
def AppendInv (max : Nat) (st : AppendState) : Prop :=
  st.parts.length ≤ max ∧
  (st.parts.length = max → st.joinNext = true) ∧
  (st.joinNext = true → st.parts ≠ []) ∧
  (st.lastBlack = true → st.parts ≠ [])

def memBadKind : Mem :=
  ⟨fun n => if n = "OPTIND" then Value.StrArray [] else Value.Undef, []⟩

def memBadInt : Mem :=
  ⟨fun n => if n = "OPTIND" then Value.Str "abc" else Value.Undef, []⟩

def jobsW : Int → Option JobStatus := fun j =>
  if j = 1 then some (JobStatus.pipeline [1, 3])
  else if j = 2 then some (JobStatus.pipeline [5, 0])
  else none

theorem joinLast_concat (ps : List (List Char)) (p seg : List Char) :
    joinLast (ps ++ [p]) seg = ps ++ [p ++ seg] := by
  simp [joinLast]

/-- Once join_next is set and the parts list is at capacity, every further
    Black or Delim span is appended onto the last part and join_next stays
    set. -/
theorem appendGo_saturated (s : List Char) (max : Nat) :
    ∀ (spans : List (SpanKind × Nat)) (start : Nat) (lastb : Bool)
      (ps : List (List Char)) (p : List Char),
      max ≤ ps.length + 1 →
      ∃ st', appendGo s max spans ⟨start, lastb, true, ps ++ [p]⟩ = some st' ∧
        st'.parts = ps ++ [p ++ spanContentConcat s spans start] ∧
        st'.joinNext = true := by
  intro spans
  induction spans with
  | nil =>
    intro start lastb ps p _
    exact ⟨_, rfl, by simp [spanContentConcat], rfl⟩
  | cons sp rest ih =>
    intro start lastb ps p h
    obtain ⟨k, e⟩ := sp
    cases k with
    | Black =>
      have hstep : appendStep s max ⟨start, lastb, true, ps ++ [p]⟩
          (SpanKind.Black, e) =
          some ⟨e, true, true, ps ++ [p ++ slice s start e]⟩ := by
        simp [appendStep, joinLast_concat]
        omega
      obtain ⟨st', hgo, hparts, hjoin⟩ := ih e true ps (p ++ slice s start e) h
      refine ⟨st', ?_, ?_, hjoin⟩
      · simpa [appendGo, hstep] using hgo
      · simp [hparts, spanContentConcat]
    | Delim =>
      have hstep : appendStep s max ⟨start, lastb, true, ps ++ [p]⟩
          (SpanKind.Delim, e) =
          some ⟨e, false, true, ps ++ [p ++ slice s start e]⟩ := by
        simp [appendStep, joinLast_concat]
        omega
      obtain ⟨st', hgo, hparts, hjoin⟩ :=
        ih e false ps (p ++ slice s start e) h
      refine ⟨st', ?_, ?_, hjoin⟩
      · simpa [appendGo, hstep] using hgo
      · simp [hparts, spanContentConcat]
    | Backslash =>
      have hstep : appendStep s max ⟨start, lastb, true, ps ++ [p]⟩
          (SpanKind.Backslash, e) =
          some ⟨e, false, true, ps ++ [p]⟩ := by
        cases lastb <;> simp [appendStep]
      obtain ⟨st', hgo, hparts, hjoin⟩ := ih e false ps p h
      refine ⟨st', ?_, ?_, hjoin⟩
      · simpa [appendGo, hstep] using hgo
      · simp [hparts, spanContentConcat]

/-- With max_fields = 1 and join_next clear, the loop skips everything up to
    the first Black span and from there joins all content into a single
    part. -/
theorem appendGo_oneField (s : List Char) :
    ∀ (spans : List (SpanKind × Nat)) (start : Nat),
      ∃ st', appendGo s 1 spans ⟨start, false, false, []⟩ = some st' ∧
        st'.parts = ((fieldFromFirstBlack s spans start).elim []
          (fun f => [f])) ∧
        st'.joinNext = hasBlackSpan spans := by
  intro spans
  induction spans with
  | nil =>
    intro start
    exact ⟨_, rfl, by simp [fieldFromFirstBlack], by simp [hasBlackSpan]⟩
  | cons sp rest ih =>
    intro start
    obtain ⟨k, e⟩ := sp
    cases k with
    | Black =>
      have hstep : appendStep s 1 ⟨start, false, false, []⟩
          (SpanKind.Black, e) =
          some ⟨e, true, true, [] ++ [slice s start e]⟩ := by
        simp [appendStep]
      obtain ⟨st', hgo, hparts, hjoin⟩ :=
        appendGo_saturated s 1 rest e true [] (slice s start e) (by simp)
      refine ⟨st', ?_, ?_, ?_⟩
      · simpa [appendGo, hstep] using hgo
      · simp [hparts, fieldFromFirstBlack]
      · simp [hjoin, hasBlackSpan]
    | Delim =>
      have hstep : appendStep s 1 ⟨start, false, false, []⟩
          (SpanKind.Delim, e) = some ⟨e, false, false, []⟩ := by
        simp [appendStep]
      obtain ⟨st', hgo, hparts, hjoin⟩ := ih e
      refine ⟨st', ?_, ?_, ?_⟩
      · simpa [appendGo, hstep] using hgo
      · simpa [fieldFromFirstBlack] using hparts
      · simpa [hasBlackSpan] using hjoin
    | Backslash =>
      have hstep : appendStep s 1 ⟨start, false, false, []⟩
          (SpanKind.Backslash, e) = some ⟨e, false, false, []⟩ := by
        simp [appendStep]
      obtain ⟨st', hgo, hparts, hjoin⟩ := ih e
      refine ⟨st', ?_, ?_, ?_⟩
      · simpa [appendGo, hstep] using hgo
      · simpa [fieldFromFirstBlack] using hparts
      · simpa [hasBlackSpan] using hjoin

theorem doneOf_eq_true (spans : List (SpanKind × Nat))
    (h : lastNotBackslash spans) : doneOf spans = true := by
  unfold doneOf
  match hl : spans.getLast? with
  | none => rfl
  | some (SpanKind.Black, e) => rfl
  | some (SpanKind.Delim, e) => rfl
  | some (SpanKind.Backslash, e) => exact absurd hl (h e)

/-- Claim C3, counterexample: on the line "a b" with spans
    Black(1) Delim(2) Black(3), _AppendParts with max_fields = 1 and
    join_next clear returns the single field "a b" — the intervening
    delimiter is retained — while the claim predicts the Black-only
    concatenation "ab". -/
theorem claim3_counterexample :
    AppendParts ['a', ' ', 'b']
        [(SpanKind.Black, 1), (SpanKind.Delim, 2), (SpanKind.Black, 3)]
        1 false [] = some ([['a', ' ', 'b']], true, true) ∧
      blackContentOnly ['a', ' ', 'b']
        [(SpanKind.Black, 1), (SpanKind.Delim, 2), (SpanKind.Black, 3)] 0 =
        ['a', 'b'] ∧
      [['a', ' ', 'b']] ≠ [['a', 'b']] := by
  refine ⟨by decide, by decide, by decide⟩

/-- Claim C3, amended: for a line whose final span is not a Backslash,
    _AppendParts with max_fields = 1 and join_next initially false is done
    and returns at most one field: none when there is no Black span, else
    exactly one field holding all Black and Delim content from the first
    Black span onward (leading delimiters removed, intervening and trailing
    delimiter content retained, Backslash content dropped). -/
theorem claim3_amended (s : List Char) (spans : List (SpanKind × Nat))
    (h : lastNotBackslash spans) :
    AppendParts s spans 1 false [] =
      some ((fieldFromFirstBlack s spans 0).elim [] (fun f => [f]), true,
        hasBlackSpan spans) := by
  obtain ⟨st', hgo, hparts, hjoin⟩ := appendGo_oneField s spans 0
  unfold AppendParts
  rw [hgo, doneOf_eq_true spans h]
  simp [hparts, hjoin]

theorem claim3_amended_witness :
    AppendParts [',', 'a', '\\', 'b', ',']
        [(SpanKind.Delim, 1), (SpanKind.Black, 2), (SpanKind.Backslash, 3),
         (SpanKind.Black, 4), (SpanKind.Delim, 5)] 1 false [] =
      some ([['a', 'b', ',']], true, true) := by
  have h := claim3_amended [',', 'a', '\\', 'b', ',']
    [(SpanKind.Delim, 1), (SpanKind.Black, 2), (SpanKind.Backslash, 3),
     (SpanKind.Black, 4), (SpanKind.Delim, 5)]
    (by intro e he; simp [List.getLast?] at he)
  exact h.trans (by decide)

theorem joinLast_length (l : List (List Char)) (seg : List Char)
    (h : l ≠ []) : (joinLast l seg).length = l.length := by
  have hp : 0 < l.length := List.length_pos.mpr h
  simp [joinLast, List.length_dropLast]
  omega

theorem joinLast_ne_nil (l : List (List Char)) (seg : List Char) :
    joinLast l seg ≠ [] := by
  simp [joinLast]

theorem appendGo_inv (s : List Char) (max : Nat) (hmax : 1 ≤ max) :
    ∀ (spans : List (SpanKind × Nat)) (st : AppendState),
      AppendInv max st →
      ∃ st', appendGo s max spans st = some st' ∧ AppendInv max st' := by
  intro spans
  induction spans with
  | nil => intro st hinv; exact ⟨st, rfl, hinv⟩
  | cons sp rest ih =>
    intro st hinv
    obtain ⟨h1, h2, h3, h4⟩ := hinv
    obtain ⟨k, e⟩ := sp
    have hne_of_eq : st.parts.length = max → st.parts ≠ [] := by
      intro hl hnil
      rw [hnil] at hl
      simp at hl
      omega
    cases k with
    | Black =>
      by_cases hc : st.joinNext = true ∧ st.parts ≠ []
      · have hlen := joinLast_length st.parts (slice s st.startIndex e) hc.2
        have hstep : appendStep s max st (SpanKind.Black, e) =
            some ⟨e, true,
              if max ≤ st.parts.length then true else false,
              joinLast st.parts (slice s st.startIndex e)⟩ := by
          simp [appendStep, if_pos hc, hlen]
        obtain ⟨st', hgo, hinv'⟩ := ih
          ⟨e, true, if max ≤ st.parts.length then true else false,
            joinLast st.parts (slice s st.startIndex e)⟩
          (by
            refine ⟨by simp [hlen]; omega, ?_, ?_, ?_⟩
            · intro hl
              simp [hlen] at hl
              simp [hl]
            · intro _
              exact joinLast_ne_nil _ _
            · intro _
              exact joinLast_ne_nil _ _)
        exact ⟨st', by simpa [appendGo, hstep] using hgo, hinv'⟩
      · have hlt : st.parts.length < max := by
          rcases Nat.lt_or_ge st.parts.length max with h | h
          · exact h
          · have hl : st.parts.length = max := le_antisymm h1 h
            exact absurd ⟨h2 hl, hne_of_eq hl⟩ hc
        have hstep : appendStep s max st (SpanKind.Black, e) =
            some ⟨e, true,
              if max ≤ st.parts.length + 1 then true else st.joinNext,
              st.parts ++ [slice s st.startIndex e]⟩ := by
          simp [appendStep, if_neg hc]
        obtain ⟨st', hgo, hinv'⟩ := ih
          ⟨e, true, if max ≤ st.parts.length + 1 then true else st.joinNext,
            st.parts ++ [slice s st.startIndex e]⟩
          (by
            refine ⟨by simp; omega, ?_, ?_, ?_⟩
            · intro hl
              simp at hl
              simp [hl]
            · intro _
              simp
            · intro _
              simp)
        exact ⟨st', by simpa [appendGo, hstep] using hgo, hinv'⟩
    | Delim =>
      by_cases hc : st.joinNext = true
      · have hne := h3 hc
        have hlen := joinLast_length st.parts (slice s st.startIndex e) hne
        have hstep : appendStep s max st (SpanKind.Delim, e) =
            some ⟨e, false,
              if max ≤ st.parts.length then true else false,
              joinLast st.parts (slice s st.startIndex e)⟩ := by
          simp [appendStep, hc, hne, hlen]
        obtain ⟨st', hgo, hinv'⟩ := ih
          ⟨e, false, if max ≤ st.parts.length then true else false,
            joinLast st.parts (slice s st.startIndex e)⟩
          (by
            refine ⟨by simp [hlen]; omega, ?_, ?_, ?_⟩
            · intro hl
              simp [hlen] at hl
              simp [hl]
            · intro _
              exact joinLast_ne_nil _ _
            · intro h
              simp at h)
        exact ⟨st', by simpa [appendGo, hstep] using hgo, hinv'⟩
      · have hj : st.joinNext = false := by
          cases hjn : st.joinNext
          · rfl
          · exact absurd hjn hc
        have hstep : appendStep s max st (SpanKind.Delim, e) =
            some ⟨e, false,
              if max ≤ st.parts.length then true else false,
              st.parts⟩ := by
          simp [appendStep, hj]
        obtain ⟨st', hgo, hinv'⟩ := ih
          ⟨e, false, if max ≤ st.parts.length then true else false,
            st.parts⟩
          (by
            refine ⟨h1, ?_, ?_, ?_⟩
            · intro hl
              simp [hl]
            · intro hjt
              by_cases hf : max ≤ st.parts.length
              · exact hne_of_eq (le_antisymm h1 hf)
              · simp [hf] at hjt
            · intro h
              simp at h)
        exact ⟨st', by simpa [appendGo, hstep] using hgo, hinv'⟩
    | Backslash =>
      have hne' : (if st.lastBlack then true else st.joinNext) = true →
          st.parts ≠ [] := by
        intro hj
        cases hlb : st.lastBlack
        · rw [hlb] at hj
          simp at hj
          exact h3 hj
        · exact h4 hlb
      have hstep : appendStep s max st (SpanKind.Backslash, e) =
          some ⟨e, false,
            if max ≤ st.parts.length then true
            else (if st.lastBlack then true else st.joinNext),
            st.parts⟩ := by
        simp [appendStep]
      obtain ⟨st', hgo, hinv'⟩ := ih
        ⟨e, false,
          if max ≤ st.parts.length then true
          else (if st.lastBlack then true else st.joinNext),
          st.parts⟩
        (by
          refine ⟨h1, ?_, ?_, ?_⟩
          · intro hl
            simp [hl]
          · intro hjt
            by_cases hf : max ≤ st.parts.length
            · exact hne_of_eq (le_antisymm h1 hf)
            · rw [if_neg hf] at hjt
              exact hne' hjt
          · intro h
            simp at h)
      exact ⟨st', by simpa [appendGo, hstep] using hgo, hinv'⟩

/-- Claim C8: for max_fields ≥ 1, the number of fields _AppendParts builds
    never exceeds max_fields, and once the parts list is at capacity with
    join_next set, all further Black and Delim content is joined onto the
    last field. -/
theorem claim8_max_fields_bound (s : List Char)
    (spans : List (SpanKind × Nat)) (max : Nat) (hmax : 1 ≤ max) :
    (∃ parts' d j, AppendParts s spans max false [] = some (parts', d, j) ∧
      parts'.length ≤ max) ∧
    (∀ (ps : List (List Char)) (p : List Char), max ≤ ps.length + 1 →
      AppendParts s spans max true (ps ++ [p]) =
        some (ps ++ [p ++ spanContentConcat s spans 0], doneOf spans,
          true)) := by
  constructor
  · obtain ⟨st', hgo, hinv⟩ := appendGo_inv s max hmax spans
      ⟨0, false, false, []⟩
      (by
        refine ⟨by simp, ?_, ?_, ?_⟩
        · intro hl
          exfalso
          simp at hl
          omega
        · intro h
          simp at h
        · intro h
          simp at h)
    refine ⟨st'.parts, doneOf spans, st'.joinNext, ?_, hinv.1⟩
    unfold AppendParts
    rw [hgo]
  · intro ps p h
    obtain ⟨st', hgo, hparts, hjoin⟩ :=
      appendGo_saturated s max spans 0 false ps p h
    unfold AppendParts
    rw [hgo]
    simp [hparts, hjoin]

theorem claim8_max_fields_bound_witness :
    (∃ parts' d j,
      AppendParts ['a', ' ', 'b', ' ', 'c']
          [(SpanKind.Black, 1), (SpanKind.Delim, 2), (SpanKind.Black, 3),
           (SpanKind.Delim, 4), (SpanKind.Black, 5)] 2 false [] =
        some (parts', d, j) ∧ parts'.length ≤ 2) ∧
    AppendParts ['a', ' ', 'b', ' ', 'c']
        [(SpanKind.Black, 1), (SpanKind.Delim, 2), (SpanKind.Black, 3),
         (SpanKind.Delim, 4), (SpanKind.Black, 5)] 2 true [['x'], ['y']] =
      some ([['x'], ['y', 'a', ' ', 'b', ' ', 'c']], true, true) := by
  have h := claim8_max_fields_bound ['a', ' ', 'b', ' ', 'c']
    [(SpanKind.Black, 1), (SpanKind.Delim, 2), (SpanKind.Black, 3),
     (SpanKind.Delim, 4), (SpanKind.Black, 5)] 2 (by decide)
  exact ⟨h.1, (h.2 [['x']] ['y'] (by decide)).trans (by decide)⟩

/-- Claim C10 (implicit): when the only input line is not newline-terminated,
    read still splits it and assigns the resulting fields (empty strings for
    extra names) but returns status 1 — the same status as immediate
    end-of-input, where every name gets the empty string. -/
theorem claim10_read_eof_midline
    (splitter : List Char → Bool → List (SpanKind × Nat)) (raw : Bool)
    (names0 : List String) (l : List Char) (hl : endsNL l = false)
    (parts' : List (List Char)) (d j : Bool)
    (hs : AppendParts l (splitter l (!raw)) (readNames names0).length false
      [] = some (parts', d, j)) :
    Read splitter raw names0 [l] =
      some (assignsOf (readNames names0) parts', 1) ∧
    Read splitter raw names0 [] =
      some (assignsOf (readNames names0) [], 1) := by
  constructor
  · have hloop : ReadLoop splitter (!raw) (readNames names0).length [l]
        false [] = some (parts', 1) := by
      unfold ReadLoop
      rw [hl]
      simp only [Bool.false_eq_true, if_false, hs]
      cases d <;> simp [ReadLoop]
    simp [Read, hloop]
  · simp [Read, ReadLoop]

theorem claim10_read_eof_midline_witness :
    Read (fun line _ => [(SpanKind.Black, line.length)]) false ["x", "y"]
        [['a', 'b']] = some ([("x", ['a', 'b']), ("y", [])], 1) := by
  have h := claim10_read_eof_midline
    (fun line _ => [(SpanKind.Black, line.length)]) false ["x", "y"]
    ['a', 'b'] (by decide) [['a', 'b']] true false (by decide)
  exact h.1.trans (by decide)

/-- Processing echo -e arguments that decode without a stop, followed by an
    argument that stops at \c, yields exactly the decoded prefix. -/
theorem decodeArgs_stopped (pre : List (List Char)) :
    ∀ (a : List Char) (post : List (List Char)) (p : List Char),
      (∀ x ∈ pre, ∃ s, decodeOfArg x = PartsResult.full s) →
      decodeOfArg a = PartsResult.stopped p →
      decodeArgs (pre ++ a :: post) =
        ArgsResult.stopped (pre.map fullOf ++ [p]) := by
  induction pre with
  | nil =>
    intro a post p _ ha
    simp [decodeArgs, ha]
  | cons x pre' ih =>
    intro a post p hpre ha
    obtain ⟨s, hs⟩ := hpre x (by simp)
    have hfx : fullOf x = s := by simp [fullOf, hs]
    have ih' := ih a post p (fun y hy => hpre y (by simp [hy])) ha
    simp [decodeArgs, hs, ih', hfx]

/-- Claim C7: echo -e, some argument contains \c: the output is the decoded
    earlier arguments plus the decoded part of that argument before \c,
    joined by single spaces, no trailing newline, later arguments dropped,
    status 0. -/
theorem claim7_echo_stop (n : Bool) (pre : List (List Char)) (a : List Char)
    (post : List (List Char)) (p : List Char)
    (hpre : ∀ x ∈ pre, ∃ s, decodeOfArg x = PartsResult.full s)
    (ha : decodeOfArg a = PartsResult.stopped p) :
    Echo true n (pre ++ a :: post) =
      some (spaceJoin (pre.map fullOf ++ [p]), 0) := by
  have hd := decodeArgs_stopped pre a post p hpre ha
  simp [Echo, hd]

theorem claim7_echo_stop_witness :
    Echo true false [['a', 'b'], ['c', '\\', 'c', 'd'], ['z']] =
      some (['a', 'b', ' ', 'c'], 0) := by
  have h := claim7_echo_stop false [['a', 'b']] ['c', '\\', 'c', 'd']
    [['z']] ['c']
    (by
      intro x hx
      simp at hx
      subst hx
      exact ⟨['a', 'b'], by decide⟩)
    (by decide)
  exact h.trans (by decide)

/-- Claim C6, divergence: the ECHO_LEXER pattern for \u and \U accepts only
    decimal digits, so an escape with hex-letter digits such as backslash-u-abcd is
    not matched and passes through as literal text instead of decoding to
    the code point U+ABCD. -/
theorem claim6_unicode_escape_divergence :
    decodeOfArg ['\\', 'u', 'a', 'b', 'c', 'd'] =
      PartsResult.full ['\\', 'u', 'a', 'b', 'c', 'd'] ∧
    Echo true false [['\\', 'u', 'a', 'b', 'c', 'd']] =
      some (['\\', 'u', 'a', 'b', 'c', 'd', '\n'], 0) ∧
    ['\\', 'u', 'a', 'b', 'c', 'd'] ≠ [Char.ofNat 0xabcd] := by
  refine ⟨by decide, by decide, by decide⟩

/-- Claim C1, divergence: _ResolveNames tests user-defined functions before
    the special-builtin table, so a function named "export" (a special
    builtin) resolves as a function, while a function named "echo" (an
    ordinary builtin) also resolves as a function (the half of the claim
    that holds). -/
theorem claim1_function_shadows_special_builtin :
    "export" ∈ _SPECIAL_BUILTINS ∧
    _ResolveNames ["export"] ["export"] (Value.Str "/bin")
        (fun _ => false) (fun _ => false) (fun _ => false) =
      [some ("function", "export")] ∧
    _ResolveNames ["echo"] ["echo"] (Value.Str "/bin")
        (fun _ => false) (fun _ => false) (fun _ => false) =
      [some ("function", "echo")] := by
  refine ⟨by decide, by decide, by decide⟩

/-- Claim C2: AND binds tighter than OR — a && b || c parses to
    Or(And(a,b), c) — and negation binds tighter than AND — ! a && b parses
    to And(Not(a), b) — for arbitrary word texts and parser context. -/
theorem claim2_bool_precedence (ctx : BoolCtx) (ta tb tc : String) :
    Parse ctx [mkW ta, wAmp, mkW tb, wPipe, mkW tc, wRBracket] =
      Except.ok (BoolExpr.LogicalOr
        (BoolExpr.LogicalAnd (BoolExpr.WordTest (mkW ta))
          (BoolExpr.WordTest (mkW tb)))
        (BoolExpr.WordTest (mkW tc))) ∧
    Parse ctx [wBang, mkW ta, wAmp, mkW tb, wRBracket] =
      Except.ok (BoolExpr.LogicalAnd
        (BoolExpr.LogicalNot (BoolExpr.WordTest (mkW ta)))
        (BoolExpr.WordTest (mkW tb))) :=
  ⟨rfl, rfl⟩

/-- Claim C4: the three boundary cases of _GetOpts — no current argument or
    one not starting with '-' (status 1, '?', OPTIND unchanged); an option
    not in the spec (status 0, '?', OPTIND advanced past it); an option
    requiring an argument with none available (status 0, '?'). -/
theorem claim4_getopts_cases (spec : List (String × Bool))
    (args : List String) (optind : Int) :
    (getArgNum args optind = Value.Undef →
      _GetOpts spec args optind = (1, "?", "", optind)) ∧
    (∀ cur, getArgNum args optind = Value.Str cur →
      startsDash cur = false →
      _GetOpts spec args optind = (1, "?", "", optind)) ∧
    (∀ cur, getArgNum args optind = Value.Str cur →
      startsDash cur = true → dictGet spec cur = none →
      _GetOpts spec args optind = (0, "?", "", optind + 1)) ∧
    (∀ cur, getArgNum args optind = Value.Str cur →
      startsDash cur = true → dictGet spec cur = some true →
      getArgNum args (optind + 1) = Value.Undef →
      _GetOpts spec args optind = (0, "?", "", optind + 1)) := by
  refine ⟨?_, ?_, ?_, ?_⟩
  · intro h
    simp [_GetOpts, h]
  · intro cur h hd
    simp [_GetOpts, h, hd]
  · intro cur h hd hn
    simp [_GetOpts, h, hd, hn]
  · intro cur h hd hsp hv
    simp [_GetOpts, h, hd, hsp, hv]

theorem claim4_getopts_cases_witness :
    _GetOpts (_ParseOptSpec "ab:") [] 1 = (1, "?", "", 1) ∧
    _GetOpts (_ParseOptSpec "ab:") ["foo"] 1 = (1, "?", "", 1) ∧
    _GetOpts (_ParseOptSpec "ab:") ["-z"] 1 = (0, "?", "", 2) ∧
    _GetOpts (_ParseOptSpec "ab:") ["-b"] 1 = (0, "?", "", 2) := by
  refine ⟨?_, ?_, ?_, ?_⟩
  · exact ((claim4_getopts_cases _ [] 1).1 (by decide)).trans (by decide)
  · exact ((claim4_getopts_cases _ ["foo"] 1).2.1 "foo" (by decide)
      (by decide)).trans (by decide)
  · exact ((claim4_getopts_cases _ ["-z"] 1).2.2.1 "-z" (by decide)
      (by decide) (by decide)).trans (by decide)
  · exact ((claim4_getopts_cases _ ["-b"] 1).2.2.2 "-b" (by decide)
      (by decide) (by decide) (by decide)).trans (by decide)

/-- Claim C9: an OPTIND value that is not a string, or whose string is not
    an integer, makes GetOpts end in the fatal e_die category, not a normal
    exit status. -/
theorem claim9_optind_fatal (mem : Mem) (a b : String)
    (rest : List String) :
    ((∀ s, mem.vars "OPTIND" ≠ Value.Str s) →
      (GetOpts (a :: b :: rest) mem).1 =
        BuiltinResult.fatal "OPTIND should be a string") ∧
    (∀ s, mem.vars "OPTIND" = Value.Str s → pyInt? s = none →
      (GetOpts (a :: b :: rest) mem).1 =
        BuiltinResult.fatal "OPTIND doesn't look like an integer") := by
  constructor
  · intro h
    cases hv : mem.vars "OPTIND" with
    | Undef => simp [GetOpts, hv]
    | Str s => exact absurd hv (h s)
    | StrArray l => simp [GetOpts, hv]
  · intro s hs hint
    simp [GetOpts, hs, hint]

theorem claim9_optind_fatal_witness :
    (GetOpts ["ab:", "x"] memBadKind).1 =
      BuiltinResult.fatal "OPTIND should be a string" ∧
    (GetOpts ["ab:", "x"] memBadInt).1 =
      BuiltinResult.fatal "OPTIND doesn't look like an integer" := by
  constructor
  · exact (claim9_optind_fatal memBadKind "ab:" "x" []).1
      (by intro s h; simp [memBadKind] at h)
  · exact (claim9_optind_fatal memBadInt "ab:" "x" []).2 "abc"
      (by simp [memBadInt]) (by decide)

/-- The status returned by the explicit-ids wait loop is that of the last
    listed id. -/
theorem waitIds_last (jobs : Int → Option JobStatus) :
    ∀ (l : List String) (a : String) (st0 : Int)
      (ps0 : Option (List String)) (j : JobStatus),
      (∀ x ∈ l, (jobOf jobs x).isSome) → jobOf jobs a = some j →
      (WaitIds jobs (l ++ [a]) st0 ps0).1 = jobStatusLast j := by
  intro l
  induction l with
  | nil =>
    intro a st0 ps0 j _ ha
    obtain ⟨ja, hja, hj⟩ := Option.bind_eq_some.mp ha
    cases j with
    | single st => simp [WaitIds, hja, hj, jobStatusLast]
    | pipeline sts => simp [WaitIds, hja, hj, jobStatusLast]
  | cons x l' ih =>
    intro a st0 ps0 j hall ha
    have hx := hall x (by simp)
    obtain ⟨sx, hsx⟩ := Option.isSome_iff_exists.mp hx
    obtain ⟨jx, hjx, hjobx⟩ := Option.bind_eq_some.mp hsx
    have hall' : ∀ y ∈ l', (jobOf jobs y).isSome :=
      fun y hy => hall y (by simp [hy])
    cases sx with
    | single st =>
      simpa [WaitIds, hjx, hjobx] using ih a st ps0 j hall' ha
    | pipeline sts =>
      simpa [WaitIds, hjx, hjobx] using
        ih a (sts.getLastD 0) (some (sts.map toString)) j hall' ha

/-- When the last listed id names a pipeline job, its member statuses are
    published as the final PIPESTATUS value. -/
theorem waitIds_pipe (jobs : Int → Option JobStatus) :
    ∀ (l : List String) (a : String) (st0 : Int)
      (ps0 : Option (List String)) (sts : List Int),
      (∀ x ∈ l, (jobOf jobs x).isSome) →
      jobOf jobs a = some (JobStatus.pipeline sts) →
      (WaitIds jobs (l ++ [a]) st0 ps0).2 = some (sts.map toString) := by
  intro l
  induction l with
  | nil =>
    intro a st0 ps0 sts _ ha
    obtain ⟨ja, hja, hj⟩ := Option.bind_eq_some.mp ha
    simp [WaitIds, hja, hj]
  | cons x l' ih =>
    intro a st0 ps0 sts hall ha
    have hx := hall x (by simp)
    obtain ⟨sx, hsx⟩ := Option.isSome_iff_exists.mp hx
    obtain ⟨jx, hjx, hjobx⟩ := Option.bind_eq_some.mp hsx
    have hall' : ∀ y ∈ l', (jobOf jobs y).isSome :=
      fun y hy => hall y (by simp [hy])
    cases sx with
    | single st =>
      simpa [WaitIds, hjx, hjobx] using ih a st ps0 sts hall' ha
    | pipeline psts =>
      simpa [WaitIds, hjx, hjobx] using
        ih a (psts.getLastD 0) (some (psts.map toString)) sts hall' ha

/-- An id that is non-numeric or names no tracked job short-circuits the
    wait loop with status 127, ignoring everything after it. -/
theorem waitIds_bad (jobs : Int → Option JobStatus) :
    ∀ (pre : List String) (b : String) (post : List String) (st0 : Int)
      (ps0 : Option (List String)),
      (∀ x ∈ pre, (jobOf jobs x).isSome) → jobOf jobs b = none →
      WaitIds jobs (pre ++ b :: post) st0 ps0 =
        WaitIds jobs (pre ++ [b]) st0 ps0 ∧
      (WaitIds jobs (pre ++ b :: post) st0 ps0).1 = 127 := by
  intro pre
  induction pre with
  | nil =>
    intro b post st0 ps0 _ hb
    cases hpb : pyInt? b with
    | none => simp [WaitIds, hpb]
    | some jid =>
      have hj : jobs jid = none := by simpa [jobOf, hpb] using hb
      simp [WaitIds, hpb, hj]
  | cons x pre' ih =>
    intro b post st0 ps0 hall hb
    have hx := hall x (by simp)
    obtain ⟨sx, hsx⟩ := Option.isSome_iff_exists.mp hx
    obtain ⟨jx, hjx, hjobx⟩ := Option.bind_eq_some.mp hsx
    have hall' : ∀ y ∈ pre', (jobOf jobs y).isSome :=
      fun y hy => hall y (by simp [hy])
    cases sx with
    | single st =>
      simpa [WaitIds, hjx, hjobx] using ih b post st ps0 hall' hb
    | pipeline psts =>
      simpa [WaitIds, hjx, hjobx] using
        ih b post (psts.getLastD 0) (some (psts.map toString)) hall' hb

/-- Claim C5: wait with explicit ids returns the status of the last listed
    id; a pipeline job among them publishes its member statuses into
    PIPESTATUS; a malformed or unknown id short-circuits with 127. -/
theorem claim5_wait_explicit_ids (jobs : Int → Option JobStatus) :
    (∀ (l : List String) (a : String) (ps0 : Option (List String))
        (j : JobStatus),
      (∀ x ∈ l, (jobOf jobs x).isSome) → jobOf jobs a = some j →
      (Wait jobs (l ++ [a]) ps0).1 = jobStatusLast j) ∧
    (∀ (l : List String) (a : String) (ps0 : Option (List String))
        (sts : List Int),
      (∀ x ∈ l, (jobOf jobs x).isSome) →
      jobOf jobs a = some (JobStatus.pipeline sts) →
      (Wait jobs (l ++ [a]) ps0).2 = some (sts.map toString)) ∧
    (∀ (pre : List String) (b : String) (post : List String)
        (ps0 : Option (List String)),
      (∀ x ∈ pre, (jobOf jobs x).isSome) → jobOf jobs b = none →
      Wait jobs (pre ++ b :: post) ps0 = Wait jobs (pre ++ [b]) ps0 ∧
      (Wait jobs (pre ++ b :: post) ps0).1 = 127) :=
  ⟨fun l a ps0 j h1 h2 => waitIds_last jobs l a 1 ps0 j h1 h2,
   fun l a ps0 sts h1 h2 => waitIds_pipe jobs l a 1 ps0 sts h1 h2,
   fun pre b post ps0 h1 h2 => waitIds_bad jobs pre b post 1 ps0 h1 h2⟩

theorem claim5_wait_explicit_ids_witness :
    (Wait jobsW ["1", "2"] none).1 = 0 ∧
    (Wait jobsW ["1", "2"] none).2 = some ["5", "0"] ∧
    (Wait jobsW ["1", "x", "9"] none).1 = 127 := by
  refine ⟨?_, ?_, ?_⟩
  · exact ((claim5_wait_explicit_ids jobsW).1 ["1"] "2" none
      (JobStatus.pipeline [5, 0]) (by decide) (by decide)).trans (by decide)
  · exact ((claim5_wait_explicit_ids jobsW).2.1 ["1"] "2" none [5, 0]
      (by decide) (by decide)).trans (by decide)
  · exact ((claim5_wait_explicit_ids jobsW).2.2 ["1"] "x" ["9"] none
      (by decide) (by decide)).2

end Oil
